import Mathlib

/-!
Verification of the UILAAT translation engine (`uilaat.py`).

Modelling conventions for the shallow embedding:
* Python `int` is modelled as `Int`; Unicode characters are modelled by
  their code point (`Nat`), and Python strings by lists of code points
  (`List Nat`), so `chr(n)` is modelled by the code point value itself.
* Fallible Python code (functions that may `raise`) returns
  `Except PyErr α`; each `PyErr` constructor corresponds to one `raise`
  site or builtin exception in the source.
* `isinstance` checks on arguments that the embedding already types
  (e.g. `int` keys) are vacuous and therefore omitted; this is noted at
  each definition concerned.
-/

instance instDecEqExcept (ε α : Type) [DecidableEq ε] [DecidableEq α] :
    DecidableEq (Except ε α) := fun x y =>
  match x, y with
  | .ok a, .ok b =>
      if h : a = b then isTrue (by rw [h])
      else isFalse (fun hh => h (Except.ok.inj hh))
  | .error a, .error b =>
      if h : a = b then isTrue (by rw [h])
      else isFalse (fun hh => h (Except.error.inj hh))
  | .ok _, .error _ => isFalse (fun hh => Except.noConfusion hh)
  | .error _, .ok _ => isFalse (fun hh => Except.noConfusion hh)

/-- Python exceptions raised by the modelled code paths of `uilaat.py`.
Each constructor stands for one `raise` site (with its message) or a
builtin exception triggered by the code. -/
inductive PyErr where
  | lookupRange    -- LookupError 'requested translation out of range'
  | valueNeg       -- ValueError 'negative code point suppressed'
  | lookupCpRange  -- LookupError 'out of range code point suppressed'
  | valueInit      -- ValueError raised by CodePointOffsetLookup.__init__
  | lookupKeySmall -- LookupError 'key smaller than smallest known key'
  | lookupKeyLarge -- LookupError 'key larger than largest known key'
  | lookupKeyGap   -- LookupError 'key not in any range'
  | valueOverlap   -- ValueError 'new ranges must not overlap existing ranges'
  | valueWithin    -- ValueError 'cannot create new ranges within another'
  | valueLength    -- ValueError 'ranges must have a length of one or more'
  | valueOddKeys   -- ValueError '... must contain an even number of keys'
  | valueCount     -- ValueError 'number of values must be half the number of keys'
  | valueChr       -- ValueError raised by chr() on an out-of-range argument
  | typeError      -- TypeError raised by an operation on an unsupported type
  | nameError      -- NameError: the handler methods read the unbound name dmeta
  | indexError     -- IndexError from indexing past the end of a list
  | attributeError -- AttributeError (e.g. list.replace does not exist)
  | fileNotFound   -- FileNotFoundError from opening a missing database file
  | recursionError -- RecursionError (bounded recursion depth)
  deriving DecidableEq

/-- Embeds `is_odd = lambda x : x%2 != 0` from `uilaat.py`, at `Nat` (the values
it is applied to in the modelled paths are list indices). -/
def is_odd (n : Nat) : Bool := n % 2 != 0

/-- Embeds `uilaat.SUBPOINT`, the placeholder marker U+FFFC, as a code point. -/
def SUBPOINT : Nat := 0xFFFC

/-- Python `s.replace(old, new)` for a one-character `old`, on strings as
code point lists: every occurrence of `old` is replaced by `new`,
scanning left to right and never rescanning replaced text. -/
def strReplace (old : Nat) (new : List Nat) : List Nat → List Nat
  | [] => []
  | c :: cs => if c = old then new ++ strReplace old new cs
               else c :: strReplace old new cs

/-- Class `CodePointOffsetLookup`: a read-only dict-like mapping code point
values to the character at a constant offset (`uilaat.py`). The fields
are the attributes `_start`, `_end`, `_offset`. -/
structure CodePointOffsetLookup where
  _start : Int
  _end : Int
  _offset : Int
  deriving DecidableEq

/-- Embeds `CodePointOffsetLookup.__init__`: validates the arguments and either
raises `ValueError` or constructs the object. The `isinstance(_, int)`
checks are vacuous here because the embedding types all three arguments
as integers. -/
def CodePointOffsetLookup.init (start stop off : Int) :
    Except PyErr CodePointOffsetLookup :=
  if start < 0 ∨ stop < 0 then .error .valueInit
  else if start > stop then .error .valueInit
  else if start + off < 0 then .error .valueInit
  else .ok ⟨start, stop, off⟩

/-- Embeds `CodePointOffsetLookup.__getitem__`: range-checks the key, then the
offset result, and returns `chr(key + offset)` (modelled as the code
point value). The `isinstance(key, int)` check is vacuous here. -/
def CodePointOffsetLookup.getitem (c : CodePointOffsetLookup) (key : Int) :
    Except PyErr Nat :=
  if key > c._end then .error .lookupRange
  else if key < c._start then .error .lookupRange
  else
    let out := key + c._offset
    if out < 0 then .error .valueNeg
    else if out > 0x10FFFF then .error .lookupCpRange
    else .ok out.toNat

/-- The values stored in a `RangeIndexedList`: the modelled paths store
Python `None`, strings, booleans (the class default `True`) or ints. -/
inductive RVal where
  | none
  | str (s : List Nat)
  | bool (b : Bool)
  | int (n : Int)
  deriving DecidableEq

/-- Embeds `RangeIndexedList.DEFAULT_VALUE = True`. -/
def RangeIndexedList.DEFAULT_VALUE : RVal := .bool true

/-- Class `RangeIndexedList`: a list returning items according to the range a
search key falls into (`uilaat.py`). The fields are the attributes
`_bounds`, `_values` and `_copy_key`; `_default` and `_validate` are
only used inside `__init__` and are not carried by the modelled
operations. Bounds are modelled at `int` keys (the use relevant to the
claims). -/
structure RangeIndexedList where
  _bounds : List Int
  _values : List RVal
  _copy_key : Bool
  deriving DecidableEq

/-- The exit path of `RangeIndexedList._do_index`, i.e. the code after
its `while` loop: resolve the final index and the found flag from the
narrowed `[i_start, i_end]` interval. Out-of-range list accesses
(impossible on the paths proved about) are modelled by `getD` with
default 0. -/
def do_index_exit (b : List Int) (key : Int) (iStart iEnd : Nat) :
    Nat × Bool :=
  if key > b.getD iStart 0 then (iEnd, decide (key = b.getD iEnd 0))
  else (iStart, decide (key = b.getD iStart 0))

/-- The `while i_end - i_start > 1` binary-search loop of
`RangeIndexedList._do_index`. The extra `fuel` argument is the
embedding of the loop's termination: each iteration narrows
`i_end - i_start`, so any `fuel >= i_end - i_start` makes the model
run the loop to completion exactly as the source does. -/
def do_index_loop (b : List Int) (key : Int) :
    Nat → Nat → Nat → Nat × Bool
  | 0, iStart, iEnd => do_index_exit b key iStart iEnd
  | fuel + 1, iStart, iEnd =>
      if iEnd - iStart > 1 then
        let i := iStart + (iEnd - iStart) / 2
        if key = b.getD i 0 then (i, true)
        else if key ≤ b.getD i 0 then do_index_loop b key fuel iStart i
        else do_index_loop b key fuel i iEnd
      else do_index_exit b key iStart iEnd

/-- Embeds `RangeIndexedList._do_index` on a bounds list: returns the key's
index (or suggested insertion index) in the bounds together with a
found flag. The fuel `b.length` dominates the iteration count of the
loop, whose interval starts at `b.length - 1` and shrinks every
iteration. -/
def do_index (b : List Int) (key : Int) : Nat × Bool :=
  if key > b.getD (b.length - 1) 0 then (b.length, false)
  else do_index_loop b key b.length 0 (b.length - 1)

/-- Embeds `RangeIndexedList.__getitem__`: index search, the three failure
branches, value selection, and the `copy_key` placeholder substitution
(`str.replace`, which replaces every marker occurrence; `chr(key)`
raises `ValueError` outside [0, 0x10FFFF]; the `in` operator raises
`TypeError` on non-string values). The `isinstance(key, int)` test in
the `copy_key` branch is always true here since keys are typed `Int`. -/
def RangeIndexedList.getitem (L : RangeIndexedList) (key : Int) :
    Except PyErr RVal :=
  let r := do_index L._bounds key
  if r.2 = false ∧ r.1 = 0 then .error .lookupKeySmall
  else if r.2 = false ∧ r.1 = L._bounds.length then .error .lookupKeyLarge
  else if r.2 = false ∧ is_odd r.1 = false then .error .lookupKeyGap
  else
    let out := if L._values.length = 1 then L._values.getD 0 .none
               else L._values.getD (r.1 / 2) .none
    if L._copy_key = false then .ok out
    else
      match out with
      | .none => .ok .none
      | .str s =>
          if SUBPOINT ∈ s then
            if 0 ≤ key ∧ key ≤ 0x10FFFF then
              .ok (.str (strReplace SUBPOINT [key.toNat] s))
            else .error .valueChr
          else .ok (.str s)
      | _ => .error .typeError

/-- Python `list.insert(i, x)` for a non-negative index (indices past
the end append, as in Python). -/
def pyInsert (l : List α) (i : Nat) (x : α) : List α :=
  l.take i ++ x :: l.drop i

/-- The pairing of `new_keys` and `new_values` iterated by the loop
`for i_nk in range(1, len(new_keys), 2)` of `RangeIndexedList.insert`:
the pair `(new_keys[i_nk-1], new_keys[i_nk])` goes with
`new_values[i_nk//2]`. -/
def toRangeTriples : List Int → List RVal → List (Int × Int × RVal)
  | ks :: ke :: rest, v :: vs => (ks, ke, v) :: toRangeTriples rest vs
  | _, _ => []

/-- The per-pair body of `RangeIndexedList.insert`'s loop: each new
range is validated against the current state and, if accepted, spliced
into `_bounds`/`_values` before the next pair is examined. The result
carries the final (possibly partially updated) object together with
the raised error, if any. -/
def insertRanges (L : RangeIndexedList) :
    List (Int × Int × RVal) → RangeIndexedList × Option PyErr
  | [] => (L, Option.none)
  | (ks, ke, v) :: rest =>
      let rs := do_index L._bounds ks
      let re := do_index L._bounds ke
      if rs.1 ≠ re.1 then (L, some .valueOverlap)
      else if is_odd rs.1 || rs.2 || re.2 then (L, some .valueWithin)
      else if ke - ks < 1 then (L, some .valueLength)
      else
        insertRanges
          { L with
            _bounds := pyInsert (pyInsert L._bounds rs.1 ke) rs.1 ks,
            _values := pyInsert L._values (re.1 / 2) v }
          rest

/-- Embeds `RangeIndexedList.insert`: default values, the two pre-checks
(even key count, matching value count) and the per-pair loop. -/
def RangeIndexedList.insert (L : RangeIndexedList) (new_keys : List Int)
    (new_values : Option (List RVal)) : RangeIndexedList × Option PyErr :=
  let nv := new_values.getD
    (List.replicate (new_keys.length / 2) RangeIndexedList.DEFAULT_VALUE)
  if is_odd new_keys.length then (L, some .valueOddKeys)
  else if nv.length ≠ new_keys.length / 2 then (L, some .valueCount)
  else insertRanges L (toRangeTriples new_keys nv)

/-- Well-formedness of a `RangeIndexedList` as established by
`validate()` on construction: strictly increasing bounds, an even and
positive number of bounds, and either one shared value or one value
per bounds pair. -/
def rilWellFormed (L : RangeIndexedList) : Prop :=
  L._bounds.Pairwise (· < ·) ∧ L._bounds.length % 2 = 0 ∧
  2 ≤ L._bounds.length ∧
  (L._values.length = 1 ∨ L._values.length = L._bounds.length / 2)

/-- JSON-decoded values as they appear in a translation database file:
null, numbers (ints in the modelled databases), strings, and arrays. -/
inductive JVal where
  | null
  | jint (n : Int)
  | jstr (s : List Nat)
  | jarr (xs : List JVal)

/-- Keys actually stored in a `TranslationDict`'s underlying dict:
ints (one-character string keys are coerced by `ord`) and strings. -/
inductive TKey where
  | int (n : Int)
  | str (s : List Nat)
  deriving DecidableEq

/-- Python dict lookup on an association list (first, i.e. only,
binding of the key). -/
def assocFind (k : TKey) : List (TKey × JVal) → Option JVal
  | [] => Option.none
  | e :: rest => if e.1 = k then some e.2 else assocFind k rest

/-- Python dict update on an association list: an existing key keeps
its position and gets the new value, a new key is appended (Python
dicts preserve insertion order). -/
def assocSet (k : TKey) (v : JVal) : List (TKey × JVal) → List (TKey × JVal)
  | [] => [(k, v)]
  | e :: rest => if e.1 = k then (k, v) :: rest else e :: assocSet k v rest

/-- Class `TranslationDict`: the auto-substitution translation dictionary of
`uilaat.py`, modelled by its stored mapping and the cached
`out_default` attribute. -/
structure TranslationDict where
  entries : List (TKey × JVal)
  out_default : JVal

/-- Embeds `TranslationDict()` / `TranslationDict({})`: no entries and
`out_default = SUBPOINT`. -/
def TranslationDict.empty : TranslationDict := ⟨[], .jstr [SUBPOINT]⟩

/-- Embeds `TranslationDict.__setitem__`: the empty-string key updates both
`out_default` and the stored `''` entry; a one-character string key is
coerced to `ord(key)`; other string keys and int keys are stored
verbatim; keys of any other type are silently ignored (the method has
no else branch). -/
def TranslationDict.setitem (d : TranslationDict) (key v : JVal) :
    TranslationDict :=
  match key with
  | .jstr [] => ⟨assocSet (.str []) v d.entries, v⟩
  | .jstr [c] => ⟨assocSet (.int (c : Int)) v d.entries, d.out_default⟩
  | .jstr cs => ⟨assocSet (.str cs) v d.entries, d.out_default⟩
  | .jint m => ⟨assocSet (.int m) v d.entries, d.out_default⟩
  | _ => d

/-- Embeds `TranslationDict.__getitem__`: `self._super.get(key, out_default)`,
then `None` passes through, and a string result containing `SUBPOINT`
has every occurrence replaced (`str.replace`) by `chr(key)` for int
keys (`chr` raises `ValueError` outside [0, 0x10FFFF]) or by the key
itself for string keys. The `in` test raises `TypeError` on an int
result; on a list result it is membership, and a hit then raises
`AttributeError` since lists have no `replace`. -/
def TranslationDict.getitem (d : TranslationDict) (key : TKey) :
    Except PyErr JVal :=
  let out := (assocFind key d.entries).getD d.out_default
  match out with
  | .null => .ok .null
  | .jstr s =>
      if SUBPOINT ∈ s then
        match key with
        | .int m =>
            if 0 ≤ m ∧ m ≤ 0x10FFFF then
              .ok (.jstr (strReplace SUBPOINT [m.toNat] s))
            else .error .valueChr
        | .str ks => .ok (.jstr (strReplace SUBPOINT ks s))
      else .ok (.jstr s)
  | .jint _ => .error .typeError
  | .jarr xs =>
      if xs.any (fun x => match x with | .jstr s => s = [SUBPOINT] | _ => false)
      then .error .attributeError
      else .ok (.jarr xs)

/-- A database file as consumed by `JSONRepo._do_load_trans` and
`JSONRepo.get_trans`: the resolved reverse-translation metadata flag
(the source reads `meta['reverse-trans']`, falling back to the
deprecated `meta['reverse']`, both defaulting to False), the `trans`
dict, and the `trans-include` list. Database names are modelled as
atoms (`Nat`); the source uses strings, of which only equality is
used. -/
structure DBFile where
  reverse_trans : Bool
  trans : List (List Nat × JVal)
  trans_include : List Nat

/-- Embeds `JSONRepo._do_load_trans`: loads the named database, inserts it
(and its name) at the front of the `_tmp`/`_filename_memo` caches, and
recursively loads each entry of `trans-include`, skipping
self-inclusion and inclusion loops with a warning. A missing file
raises `FileNotFoundError`. The `fuel` argument is the embedding of
recursion depth (Python's recursion limit): any fuel at least the
inclusion-chain depth reproduces the source behaviour exactly. -/
def do_load_trans (repo : Nat → Option DBFile) :
    Nat → Nat → List (Nat × DBFile) × List Nat →
    Except PyErr (List (Nat × DBFile) × List Nat)
  | 0, _, _ => .error .recursionError
  | fuel + 1, name, st =>
      match repo name with
      | Option.none => .error .fileNotFound
      | some db =>
          db.trans_include.foldlM
            (fun st2 e =>
              if e = name then .ok st2
              else if e ∈ st2.2 then .ok st2
              else do_load_trans repo fuel e st2)
            ((name, db) :: st.1, name :: st.2)

/-- Embeds `JSONRepo._load_trans`: clears the caches and launches the
recursive load. -/
def load_trans (repo : Nat → Option DBFile) (fuel : Nat) (name : Nat) :
    Except PyErr (List (Nat × DBFile) × List Nat) :=
  do_load_trans repo fuel name ([], [])

/-- Python list indexing `xs[i]`, including negative-index wraparound;
`none` models `IndexError`. -/
def pyGet (xs : List α) (i : Int) : Option α :=
  if 0 ≤ i then xs.get? i.toNat
  else if (-i).toNat ≤ xs.length then xs.get? (xs.length - (-i).toNat)
  else Option.none

/-- Python list indexing as an `Except`, raising `IndexError`. -/
def pyGetE (xs : List α) (i : Int) : Except PyErr α :=
  match pyGet xs i with
  | some v => .ok v
  | Option.none => .error .indexError

/-- Embeds `JSONRepo._prep_trans`: alternate selection with the `n >= len(v)`
fallback, then the `maketrans` block (which for a string value either
coerces a one-character key and returns without storing, or reads the
unbound name `dmeta` and so raises `NameError`), then the reverse or
normal store into the first dict. -/
def prep_trans (d : TranslationDict) (k : List Nat) (v : JVal) (n : Int)
    (maketrans reverse_trans : Bool) : Except PyErr TranslationDict := do
  let v_out ← (match v with
    | .jarr xs => if (xs.length : Int) ≤ n then pyGetE xs 0 else pyGetE xs n
    | _ => .ok v)
  match maketrans, v with
  | true, .jstr _ =>
      if k.length = 1 then .ok d
      else .error .nameError
  | _, _ =>
      if reverse_trans then
        if k = [] then .ok d
        else
          match v with
          | .jarr items =>
              .ok (items.foldl (fun dd it => dd.setitem it (.jstr k)) d)
          | _ => .ok (d.setitem v_out (.jstr k))
      else .ok (d.setitem (.jstr k) v_out)

/-- The body of `JSONRepo._prep_trans_cpoff` after alternate selection:
read `args[0..2]`, apply the reversal recomputation
(offset+start, offset+end, -offset) when requested, and run the
`CodePointOffsetLookup` constructor. Non-integer arguments fail the
constructor's `isinstance` check; rule values of shapes other than an
argument array (never produced by the modelled databases) are
collapsed to `TypeError`. -/
def cpoffArgs (args : JVal) (reverse_trans : Bool) :
    Except PyErr CodePointOffsetLookup :=
  match args with
  | .jarr l => do
      let a0 ← pyGetE l 0
      let a1 ← pyGetE l 1
      let a2 ← pyGetE l 2
      match a0, a1, a2 with
      | .jint s, .jint e, .jint off =>
          if reverse_trans then
            CodePointOffsetLookup.init (off + s) (off + e) (-off)
          else CodePointOffsetLookup.init s e off
      | _, _, _ => .error .valueInit
  | _ => .error .typeError

/-- Embeds `JSONRepo._prep_trans_cpoff`: alternate selection — note the
`n > len(v)` (not `>=`) guard — then `cpoffArgs`. -/
def prep_trans_cpoff (v : JVal) (n : Int) (reverse_trans : Bool) :
    Except PyErr CodePointOffsetLookup :=
  match v with
  | .jarr xs =>
      match xs.head? with
      | some (.jarr _) =>
          match pyGet xs (if n > (xs.length : Int) then 0 else n) with
          | some args => cpoffArgs args reverse_trans
          | Option.none => .error .indexError
      | some _ => cpoffArgs (.jarr xs) reverse_trans
      | Option.none => .error .indexError
  | _ => .error .typeError

/-- The body of `JSONRepo._prep_trans_regex` after alternate selection:
`re.compile(args[0])` (modelled by keeping the pattern string, which
must be a string) and the replacement `args[1]`. Non-array rule values
are collapsed to `TypeError` as for `cpoffArgs`. -/
def regexArgs (args : JVal) : Except PyErr (JVal × JVal) :=
  match args with
  | .jarr l => do
      let a0 ← pyGetE l 0
      let a1 ← pyGetE l 1
      match a0 with
      | .jstr _ => .ok (a0, a1)
      | _ => .error .typeError
  | _ => .error .typeError

/-- Embeds `JSONRepo._prep_trans_regex`: with `reverse_trans` set the method
formats a warning message from the unbound name `dmeta` and so raises
`NameError`; otherwise alternate selection (`n > len(v)` guard) and
`regexArgs`. -/
def prep_trans_regex (v : JVal) (n : Int) (reverse_trans : Bool) :
    Except PyErr (JVal × JVal) :=
  if reverse_trans then .error .nameError
  else
    match v with
    | .jarr xs =>
        match xs.head? with
        | some (.jarr _) =>
            match pyGet xs (if n > (xs.length : Int) then 0 else n) with
            | some args => regexArgs args
            | Option.none => .error .indexError
        | some _ => regexArgs (.jarr xs)
        | Option.none => .error .indexError
    | _ => .error .typeError

/-- Embeds `RangeIndexedList.validate` on already-typed int bounds: an odd
bounds count, a value count that is neither one nor half the bounds
count (the source tests `len(bounds)//len(values) != 2`), or bounds
that are not strictly increasing each raise `ValueError`. The
same-type check is vacuous at int bounds; an empty bounds list raises
`IndexError` at `bounds[0]`; an empty values list raises
`ZeroDivisionError`, collapsed here to `TypeError`. -/
def validate_ril (bounds : List Int) (values : List RVal)
    (values_given : Bool) : Option PyErr :=
  if is_odd bounds.length then some .valueInit
  else if values_given ∧ values.length = 0 then some .typeError
  else if values_given ∧ bounds.length / values.length ≠ 2 ∧
      values.length ≠ 1 then some .valueInit
  else if bounds.isEmpty then some .indexError
  else if ¬ List.Chain' (· < ·) bounds then some .valueInit
  else Option.none

/-- JSON array to int bounds; bounds of any other element type
(which the modelled databases never produce) are collapsed to
`TypeError`. -/
def toIntList : List JVal → Option (List Int)
  | [] => some []
  | .jint m :: rest => (toIntList rest).map (m :: ·)
  | _ => Option.none

/-- JSON values to `RangeIndexedList` values. Nested arrays (never
produced by the modelled databases, and never type-checked by the
source) are collapsed to `None`. -/
def toRValList : List JVal → List RVal :=
  List.map (fun v =>
    match v with
    | .null => RVal.none
    | .jint m => RVal.int m
    | .jstr s => RVal.str s
    | .jarr _ => RVal.none)

/-- Embeds `RangeIndexedList.__init__` as invoked by `_prep_trans_ril`
(explicit values, `copy_key=True`, validation on). -/
def ril_init (bs vs : JVal) : Except PyErr RangeIndexedList :=
  match bs, vs with
  | .jarr bl, .jarr vl =>
      match toIntList bl with
      | some bounds =>
          let values := toRValList vl
          match validate_ril bounds values true with
          | some e => .error e
          | Option.none => .ok ⟨bounds, values, true⟩
      | Option.none => .error .typeError
  | _, _ => .error .typeError

/-- Embeds `JSONRepo._prep_trans_ril`: with `reverse_trans` set the method
formats a warning message from the unbound name `dmeta` and so raises
`NameError`; otherwise alternate selection keyed on
`isinstance(v[0][0], (list, tuple))` — again with the `n > len(v)`
guard — and construction of the range-indexed list. -/
def prep_trans_ril (v : JVal) (n : Int) (reverse_trans : Bool) :
    Except PyErr RangeIndexedList :=
  if reverse_trans then .error .nameError
  else
    match v with
    | .jarr xs =>
        match xs.head? with
        | some (.jarr ys) =>
            match ys.head? with
            | some (.jarr _) =>
                match pyGet xs (if n > (xs.length : Int) then 0 else n) with
                | some (.jarr alt) => do
                    let bs ← pyGetE alt 0
                    let vs ← pyGetE alt 1
                    ril_init bs vs
                | some _ => .error .typeError
                | Option.none => .error .indexError
            | some _ => do
                let bs ← pyGetE xs 0
                let vs ← pyGetE xs 1
                ril_init bs vs
            | Option.none => .error .indexError
        | some _ => .error .typeError
        | Option.none => .error .indexError
    | _ => .error .typeError

/-- Embeds `JSONRepo.CODE_OFFSET` (U+F811). -/
def CODE_OFFSET : Nat := 0xF811

/-- Embeds `JSONRepo.CODE_REGEX` (U+F812). -/
def CODE_REGEX : Nat := 0xF812

/-- Embeds `JSONRepo.CODE_RANGE` (U+F813). -/
def CODE_RANGE : Nat := 0xF813

/-- The non-dict lookup objects appended after index 0 of the
translation object list built by `get_trans`: offset lookups, range
lists, and `[compiled regex, replacement]` pairs (the compiled regex
modelled by its pattern string). -/
inductive TailLookup where
  | cpoff (c : CodePointOffsetLookup)
  | ril (r : RangeIndexedList)
  | regex (pat repl : JVal)

/-- One iteration of `get_trans`'s inner loop: dispatch on the key
(the empty key and keys whose first character is not a handler code go
to `_prep_trans`; the handler codes select the offset, range, or regex
handler, which append to the lookup list). -/
def getTransStep (n : Int) (maketrans reverse_trans : Bool)
    (st : TranslationDict × List TailLookup) (k : List Nat) (v : JVal) :
    Except PyErr (TranslationDict × List TailLookup) :=
  if k = [] then do
    let d ← prep_trans st.1 k v n maketrans reverse_trans
    .ok (d, st.2)
  else if k.headD 0 = CODE_OFFSET then do
    let c ← prep_trans_cpoff v n reverse_trans
    .ok (st.1, st.2 ++ [.cpoff c])
  else if k.headD 0 = CODE_RANGE then do
    let r ← prep_trans_ril v n reverse_trans
    .ok (st.1, st.2 ++ [.ril r])
  else if k.headD 0 = CODE_REGEX then do
    let p ← prep_trans_regex v n reverse_trans
    .ok (st.1, st.2 ++ [.regex p.1 p.2])
  else do
    let d ← prep_trans st.1 k v n maketrans reverse_trans
    .ok (d, st.2)

/-- Embeds `JSONRepo.get_trans` (with a database loaded; `n=None` is `n=0`
and is supplied by the caller; `one_dict=False`): iterate the loaded
databases in `_tmp` order, dispatching every `trans` entry, starting
from the fresh `TranslationDict({})` at index 0 of the lookup-object
list. The first raised exception aborts the call, as in Python. -/
def get_trans (tmp : List (Nat × DBFile)) (n : Int) (maketrans : Bool) :
    Except PyErr (TranslationDict × List TailLookup) :=
  tmp.foldlM
    (fun st d =>
      d.2.trans.foldlM
        (fun st2 e => getTransStep n maketrans d.2.reverse_trans st2 e.1 e.2)
        st)
    (TranslationDict.empty, [])

/-- The key under which `TranslationDict.__setitem__` stores a string
key: one-character strings are coerced by `ord`, everything else is
stored as the string itself. -/
def strKey : List Nat → TKey
  | [c] => .int (c : Int)
  | cs => .str cs

/-- Folding plain character entries into a `TranslationDict` via
`__setitem__`, in database order; this is the explicit form of the
merged character-lookup dictionary built by `get_trans`. -/
def foldSetitems (es : List (List Nat × JVal)) (d : TranslationDict) :
    TranslationDict :=
  es.foldl (fun dd e => dd.setitem (.jstr e.1) e.2) d

/-- First binding of a key in a `trans` entry list (Python dict
lookup; loaded dicts have unique keys). -/
def findVal (k : List Nat) : List (List Nat × JVal) → Option JVal
  | [] => Option.none
  | e :: rest => if e.1 = k then some e.2 else findVal k rest

/-- Last binding of a key in a `trans` entry list (the binding that a
left fold of `__setitem__` leaves in force). -/
def lastVal (k : List Nat) : List (List Nat × JVal) → Option JVal
  | [] => Option.none
  | e :: rest =>
      match lastVal k rest with
      | some v => some v
      | Option.none => if e.1 = k then some e.2 else Option.none

/-- A plain character rule entry: a non-empty string key that does not
begin with a handler code, and a plain string value. -/
def entryPlain : List Nat × JVal → Bool
  | (k, .jstr _) =>
      !k.isEmpty && k.headD 0 != CODE_OFFSET && k.headD 0 != CODE_RANGE &&
        k.headD 0 != CODE_REGEX
  | _ => false

/-- A three-database repository in which database 2 includes database
1, which includes database 0 (the C -> B -> A inclusion chain, names
as atoms 2, 1, 0), with the given `trans` contents and no reversal. -/
def chainRepo (tA tB tC : List (List Nat × JVal)) : Nat → Option DBFile :=
  fun name =>
    if name = 0 then some ⟨false, tA, []⟩
    else if name = 1 then some ⟨false, tB, [0]⟩
    else if name = 2 then some ⟨false, tC, [1]⟩
    else Option.none

/-- C1: for every `CodePointOffsetLookup` that passed constructor
validation and every integer key: a key below `start` or above `end`
raises the out-of-range `LookupError`; an in-range key whose offset
result exceeds 0x10FFFF raises the out-of-range `LookupError`; and any
other in-range key returns `chr(key + offset)`. -/
theorem c1_offset_lookup_spec (start stop off : Int) (L : CodePointOffsetLookup)
    (h : CodePointOffsetLookup.init start stop off = .ok L) (key : Int) :
    ((key < start ∨ key > stop) → L.getitem key = .error .lookupRange) ∧
    (start ≤ key → key ≤ stop → 0x10FFFF < key + off →
      L.getitem key = .error .lookupCpRange) ∧
    (start ≤ key → key ≤ stop → key + off ≤ 0x10FFFF →
      L.getitem key = .ok (key + off).toNat) := by
  unfold CodePointOffsetLookup.init at h
  split_ifs at h with h1 h2 h3
  obtain rfl := Except.ok.inj h
  push_neg at h1
  refine ⟨?_, ?_, ?_⟩
  · intro hk
    unfold CodePointOffsetLookup.getitem
    dsimp only
    split_ifs with g1 g2 g3 g4 <;> first | rfl | omega
  · intro hk1 hk2 hover
    unfold CodePointOffsetLookup.getitem
    dsimp only
    split_ifs with g1 g2 g3 g4 <;> first | rfl | omega
  · intro hk1 hk2 hok
    unfold CodePointOffsetLookup.getitem
    dsimp only
    split_ifs with g1 g2 g3 g4 <;> first | rfl | omega

/-- Witness for C1 at a concrete instance (the wide-character offset
table: start 65, end 90, offset 65248). -/
theorem c1_offset_lookup_spec_witness :
    CodePointOffsetLookup.init 65 90 65248 = .ok ⟨65, 90, 65248⟩ ∧
    CodePointOffsetLookup.getitem ⟨65, 90, 65248⟩ 64 = .error .lookupRange ∧
    CodePointOffsetLookup.getitem ⟨65, 90, 65248⟩ 65 = .ok 65313 := by
  refine ⟨by decide, ?_, ?_⟩
  · exact (c1_offset_lookup_spec 65 90 65248 ⟨65, 90, 65248⟩ (by decide) 64).1
      (Or.inl (by decide))
  · exact (c1_offset_lookup_spec 65 90 65248 ⟨65, 90, 65248⟩ (by decide) 65).2.2
      (by decide) (by decide) (by decide)

/-- C10: on a `CodePointOffsetLookup` that passed constructor validation
(`start + offset >= 0`), no lookup can ever take the
`negative code point suppressed` error branch, and every in-range key
has `key + offset >= 0`. -/
theorem c10_negative_branch_unreachable (start stop off : Int)
    (L : CodePointOffsetLookup)
    (h : CodePointOffsetLookup.init start stop off = .ok L) :
    (∀ key : Int, L.getitem key ≠ .error .valueNeg) ∧
    (∀ key : Int, start ≤ key → key ≤ stop → 0 ≤ key + off) := by
  unfold CodePointOffsetLookup.init at h
  split_ifs at h with h1 h2 h3
  obtain rfl := Except.ok.inj h
  push_neg at h1
  constructor
  · intro key
    unfold CodePointOffsetLookup.getitem
    dsimp only
    split_ifs with g1 g2 g3 g4 <;> simp <;> omega
  · intro key hk1 hk2
    omega

/-- Witness for C10 at the concrete instance (65, 90, 65248). -/
theorem c10_negative_branch_unreachable_witness :
    CodePointOffsetLookup.getitem ⟨65, 90, 65248⟩ 70 ≠ .error .valueNeg ∧
    (0 : Int) ≤ 70 + 65248 := by
  exact ⟨(c10_negative_branch_unreachable 65 90 65248 ⟨65, 90, 65248⟩
    (by decide)).1 70,
    (c10_negative_branch_unreachable 65 90 65248 ⟨65, 90, 65248⟩
    (by decide)).2 70 (by decide) (by decide)⟩

/-- Counterexample for C6 as stated: the constructor never bounds
`end` by 0x10FFFF, so with the forward lookup (0x110000, 0x110000,
-0x100000) and the reverse lookup built by `_prep_trans_cpoff`'s rule
(start+offset, end+offset, -offset) = (0x10000, 0x10000, 0x100000),
the key 0x110000 is in the forward domain and the forward lookup
succeeds with U+10000, but the reverse lookup of U+10000 raises the
out-of-range `LookupError` instead of returning `chr(key)` (which does
not even exist, as `chr` rejects 0x110000). -/
theorem c6_reverse_roundtrip_counterexample :
    CodePointOffsetLookup.init 0x110000 0x110000 (-0x100000) =
      .ok ⟨0x110000, 0x110000, -0x100000⟩ ∧
    CodePointOffsetLookup.init (-0x100000 + 0x110000) (-0x100000 + 0x110000)
      (-(-0x100000 : Int)) = .ok ⟨0x10000, 0x10000, 0x100000⟩ ∧
    CodePointOffsetLookup.getitem ⟨0x110000, 0x110000, -0x100000⟩ 0x110000 =
      .ok 0x10000 ∧
    CodePointOffsetLookup.getitem ⟨0x10000, 0x10000, 0x100000⟩ 0x10000 =
      .error .lookupCpRange := by
  refine ⟨by decide, by decide, by decide, by decide⟩

/-- C6 amended: the reversal round-trip holds for every key of the
forward domain that is itself a valid code point (`key <= 0x10FFFF`)
and on which the forward lookup succeeds: looking up the code point of
the forward output in the reverse lookup built with parameters
(offset+start, offset+end, -offset), as `_prep_trans_cpoff` builds it,
returns `chr(key)`. -/
theorem c6_reverse_roundtrip_amended (start stop off : Int)
    (F R : CodePointOffsetLookup)
    (hF : CodePointOffsetLookup.init start stop off = .ok F)
    (hR : CodePointOffsetLookup.init (off + start) (off + stop) (-off) = .ok R)
    (key : Int) (hk1 : start ≤ key) (hk2 : key ≤ stop)
    (hmax : key ≤ 0x10FFFF) (c : Nat) (hc : F.getitem key = .ok c) :
    R.getitem (c : Int) = .ok key.toNat := by
  unfold CodePointOffsetLookup.init at hF hR
  split_ifs at hF with f1 f2 f3
  obtain rfl := Except.ok.inj hF
  split_ifs at hR with r1 r2 r3
  obtain rfl := Except.ok.inj hR
  push_neg at f1 r1
  unfold CodePointOffsetLookup.getitem at hc ⊢
  dsimp only at hc ⊢
  split_ifs at hc with g1 g2 g3 g4
  obtain rfl := Except.ok.inj hc
  have hge : (0 : Int) ≤ key + off := by omega
  have hcast : ((key + off).toNat : Int) = key + off := Int.toNat_of_nonneg hge
  split_ifs with q1 q2 q3 q4 <;> first | omega |
    (rw [show ((key + off).toNat : Int) + -off = key by omega])

/-- Witness for C6 amended, at the wide-character table (65, 90, 65248)
with key 65: the forward lookup returns U+FF21 and the reverse lookup
of U+FF21 returns chr(65). -/
theorem c6_reverse_roundtrip_amended_witness :
    CodePointOffsetLookup.getitem ⟨65248 + 65, 65248 + 90, -65248⟩ 65313 =
      .ok 65 := by
  have h := c6_reverse_roundtrip_amended 65 90 65248
    ⟨65, 90, 65248⟩ ⟨65248 + 65, 65248 + 90, -65248⟩ (by decide) (by decide)
    65 (by decide) (by decide) (by decide) 65313 (by decide)
  simpa using h

/-- Components of a pair equality. -/
theorem pair_eq {α β : Type} {a c : α} {b d : β} (h : (a, b) = (c, d)) :
    a = c ∧ b = d :=
  ⟨congrArg Prod.fst h, congrArg Prod.snd h⟩

/-- On a strictly sorted bounds list, earlier bounds are strictly
smaller. -/
theorem getD_sorted_lt {b : List Int} (hs : b.Pairwise (· < ·)) {i j : Nat}
    (hij : i < j) (hj : j < b.length) : b.getD i 0 < b.getD j 0 := by
  have hi : i < b.length := lt_trans hij hj
  rw [List.getD_eq_getElem _ _ hi, List.getD_eq_getElem _ _ hj]
  exact List.pairwise_iff_getElem.mp hs i j hi hj hij

/-- On a strictly sorted bounds list, earlier bounds are at most later
ones. -/
theorem getD_sorted_le {b : List Int} (hs : b.Pairwise (· < ·)) {i j : Nat}
    (hij : i ≤ j) (hj : j < b.length) : b.getD i 0 ≤ b.getD j 0 := by
  rcases Nat.eq_or_lt_of_le hij with rfl | h
  · exact le_refl _
  · exact le_of_lt (getD_sorted_lt hs h hj)

/-- Correctness of the binary-search loop of `_do_index`: under the
loop invariants (the key is at most the upper bound, and the lower
index is 0 or strictly below the key), the loop either finds an exact
bound match, or reports the position of the key strictly between two
consecutive bounds, or reports position 0 for a key below the first
bound. -/
theorem do_index_loop_spec (b : List Int) (key : Int)
    (hs : b.Pairwise (· < ·)) :
    ∀ (fuel iStart iEnd j : Nat) (f : Bool),
      iEnd < b.length → iStart < iEnd → iEnd - iStart ≤ fuel →
      (iStart = 0 ∨ b.getD iStart 0 < key) → key ≤ b.getD iEnd 0 →
      do_index_loop b key fuel iStart iEnd = (j, f) →
      (f = true → j < b.length ∧ b.getD j 0 = key) ∧
      (f = false →
        (j = 0 ∧ key < b.getD 0 0) ∨
        (0 < j ∧ j ≤ iEnd ∧ b.getD (j - 1) 0 < key ∧ key < b.getD j 0)) := by
  intro fuel
  induction fuel with
  | zero => intro iStart iEnd j f h1 h2 h3 h4 h5 h6; omega
  | succ m ih =>
    intro iStart iEnd j f hlen hlt hfuel hinv hub heq
    simp only [do_index_loop] at heq
    by_cases hgap : iEnd - iStart > 1
    · rw [if_pos hgap] at heq
      have hi1 : iStart < iStart + (iEnd - iStart) / 2 := by omega
      have hi2 : iStart + (iEnd - iStart) / 2 < iEnd := by omega
      by_cases hk1 : key = b.getD (iStart + (iEnd - iStart) / 2) 0
      · rw [if_pos hk1] at heq
        obtain ⟨hj, hf⟩ := pair_eq heq
        subst hj; subst hf
        refine ⟨fun _ => ⟨by omega, hk1.symm⟩, fun hff => by simp at hff⟩
      · rw [if_neg hk1] at heq
        by_cases hk2 : key ≤ b.getD (iStart + (iEnd - iStart) / 2) 0
        · rw [if_pos hk2] at heq
          have h := ih iStart (iStart + (iEnd - iStart) / 2) j f
            (by omega) hi1 (by omega) hinv hk2 heq
          refine ⟨h.1, fun hff => ?_⟩
          rcases h.2 hff with hcase | ⟨ha, hb, hc, hd⟩
          · exact Or.inl hcase
          · exact Or.inr ⟨ha, by omega, hc, hd⟩
        · rw [if_neg hk2] at heq
          push_neg at hk2
          exact ih (iStart + (iEnd - iStart) / 2) iEnd j f hlen hi2
            (by omega) (Or.inr hk2) hub heq
    · rw [if_neg hgap] at heq
      simp only [do_index_exit] at heq
      by_cases hko : key > b.getD iStart 0
      · rw [if_pos hko] at heq
        obtain ⟨hj, hf⟩ := pair_eq heq
        subst hj; subst hf
        constructor
        · intro hd
          have hkey := of_decide_eq_true hd
          exact ⟨hlen, hkey.symm⟩
        · intro hd
          have hne := of_decide_eq_false hd
          refine Or.inr ⟨by omega, le_refl _, ?_, lt_of_le_of_ne hub hne⟩
          have hEe : iEnd - 1 = iStart := by omega
          rw [hEe]; exact hko
      · rw [if_neg hko] at heq
        obtain ⟨hj, hf⟩ := pair_eq heq
        subst hj; subst hf
        constructor
        · intro hd
          have hkey := of_decide_eq_true hd
          exact ⟨by omega, hkey.symm⟩
        · intro hd
          have hne := of_decide_eq_false hd
          push_neg at hko
          have hlt2 : key < b.getD iStart 0 := lt_of_le_of_ne hko hne
          rcases hinv with h0 | hcon
          · subst h0; exact Or.inl ⟨rfl, hlt2⟩
          · omega

/-- Correctness of `_do_index` on a well-formed bounds list: the
returned index and found flag classify the key as an exact bound
match, below the smallest bound (index 0), strictly between two
consecutive bounds, or above the largest bound (index = length). -/
theorem do_index_spec (b : List Int) (key : Int)
    (hs : b.Pairwise (· < ·)) (hlen2 : 2 ≤ b.length) (j : Nat) (f : Bool)
    (heq : do_index b key = (j, f)) :
    (f = true → j < b.length ∧ b.getD j 0 = key) ∧
    (f = false →
      (j = 0 ∧ key < b.getD 0 0) ∨
      (0 < j ∧ j < b.length ∧ b.getD (j - 1) 0 < key ∧ key < b.getD j 0) ∨
      (j = b.length ∧ b.getD (b.length - 1) 0 < key)) := by
  unfold do_index at heq
  by_cases hbig : key > b.getD (b.length - 1) 0
  · rw [if_pos hbig] at heq
    obtain ⟨hj, hf⟩ := pair_eq heq
    subst hj; subst hf
    exact ⟨fun hcon => by simp at hcon,
      fun _ => Or.inr (Or.inr ⟨rfl, hbig⟩)⟩
  · rw [if_neg hbig] at heq
    push_neg at hbig
    have h := do_index_loop_spec b key hs b.length 0 (b.length - 1) j f
      (by omega) (by omega) (by omega) (Or.inl rfl) hbig heq
    refine ⟨h.1, fun hf => ?_⟩
    rcases h.2 hf with hcase | ⟨ha, hb, hc, hd⟩
    · exact Or.inl hcase
    · exact Or.inr (Or.inl ⟨ha, by omega, hc, hd⟩)

/-- Counterexample for C2 as stated: on the well-formed bounds
(2,4),(10,12), the gap key 7 (strictly between the two ranges) makes
`_do_index` return the even index 2 with found=false — not an odd
index — so an even index together with found=false does occur. -/
theorem c2_gap_index_counterexample :
    do_index [2, 4, 10, 12] 7 = (2, false) ∧ is_odd 2 = false ∧
    (4 : Int) < 7 ∧ (7 : Int) < 10 := by decide

/-- C2 amended: for a well-formed `RangeIndexedList`, a key strictly
inside the gap between two consecutive ranges makes `_do_index` return
an even index (that of the next range start) with found=false, and
`__getitem__` then fails with the gap `LookupError`; dually, whenever
`_do_index` returns an odd index with found=false the key lies
strictly inside a range (between that range's start and stop bounds),
which is the case `__getitem__` resolves to a value. -/
theorem c2_gap_index_amended :
    (∀ (L : RangeIndexedList) (t : Nat) (key : Int), rilWellFormed L →
        2 * t + 2 < L._bounds.length →
        L._bounds.getD (2 * t + 1) 0 < key →
        key < L._bounds.getD (2 * t + 2) 0 →
        do_index L._bounds key = (2 * t + 2, false) ∧
        L.getitem key = .error .lookupKeyGap) ∧
    (∀ (L : RangeIndexedList) (key : Int) (j : Nat), rilWellFormed L →
        do_index L._bounds key = (j, false) → is_odd j = true →
        0 < j ∧ j < L._bounds.length ∧
        L._bounds.getD (j - 1) 0 < key ∧ key < L._bounds.getD j 0) := by
  constructor
  · intro L t key hwf hlen hlow hhigh
    obtain ⟨hs, heven, hlen2, hvals⟩ := hwf
    rcases hdo : do_index L._bounds key with ⟨j, f⟩
    have h := do_index_spec L._bounds key hs hlen2 j f hdo
    have hf : f = false := by
      cases f
      · rfl
      · exfalso
        obtain ⟨hjlen, hkey⟩ := h.1 rfl
        rcases Nat.lt_or_ge j (2 * t + 2) with hj | hj
        · have := getD_sorted_le hs (show j ≤ 2 * t + 1 by omega)
            (show 2 * t + 1 < L._bounds.length by omega)
          omega
        · have := getD_sorted_le hs hj hjlen
          omega
    subst hf
    rcases h.2 rfl with ⟨hj0, hlt⟩ | ⟨ha, hb, hc, hd⟩ | ⟨hjL, hgt⟩
    · exfalso
      have := getD_sorted_le hs (Nat.zero_le (2 * t + 1))
        (show 2 * t + 1 < L._bounds.length by omega)
      omega
    · have hj : j = 2 * t + 2 := by
        have h1 : 2 * t + 1 < j := by
          by_contra hle
          have := getD_sorted_le hs (show j ≤ 2 * t + 1 by omega)
            (show 2 * t + 1 < L._bounds.length by omega)
          omega
        have h2 : j - 1 < 2 * t + 2 := by
          by_contra hge
          have := getD_sorted_le hs (show 2 * t + 2 ≤ j - 1 by omega)
            (show j - 1 < L._bounds.length by omega)
          omega
        omega
      subst hj
      refine ⟨rfl, ?_⟩
      have hmod : (2 * t + 2) % 2 = 0 := by omega
      have hodd : is_odd (2 * t + 2) = false := by
        unfold is_odd; rw [hmod]; rfl
      unfold RangeIndexedList.getitem
      rw [hdo]
      rw [if_neg (fun hcon => by have := hcon.2; omega),
        if_neg (fun hcon => by have := hcon.2; omega),
        if_pos ⟨rfl, hodd⟩]
    · exfalso
      have := getD_sorted_le hs
        (show 2 * t + 2 ≤ L._bounds.length - 1 by omega) (by omega)
      omega
  · intro L key j hwf hdo hodd
    obtain ⟨hs, heven, hlen2, _⟩ := hwf
    have h := do_index_spec L._bounds key hs hlen2 j false hdo
    rcases h.2 rfl with ⟨hj0, _⟩ | ⟨ha, hb, hc, hd⟩ | ⟨hjL, _⟩
    · subst hj0; simp [is_odd] at hodd
    · exact ⟨ha, hb, hc, hd⟩
    · subst hjL; unfold is_odd at hodd; rw [heven] at hodd; simp at hodd

/-- Witness for C2 amended at bounds (2,4),(10,12): gap key 7 gets
(2, false) and the gap error; interior key 3 gets the odd index 1
with found=false and lies strictly inside the first range. -/
theorem c2_gap_index_amended_witness :
    (do_index [2, 4, 10, 12] 7 = (2, false) ∧
     RangeIndexedList.getitem
       ⟨[2, 4, 10, 12], [.str [97], .str [98]], false⟩ 7 =
       .error .lookupKeyGap) ∧
    (0 < 1 ∧ 1 < ([2, 4, 10, 12] : List Int).length ∧
     ([2, 4, 10, 12] : List Int).getD 0 0 < 3 ∧
     (3 : Int) < ([2, 4, 10, 12] : List Int).getD 1 0) := by
  constructor
  · exact c2_gap_index_amended.1
      ⟨[2, 4, 10, 12], [.str [97], .str [98]], false⟩ 0 7
      ⟨by decide, by decide, by decide, by decide⟩
      (by decide) (by decide) (by decide)
  · exact c2_gap_index_amended.2
      ⟨[2, 4, 10, 12], [.str [97], .str [98]], false⟩ 3 1
      ⟨by decide, by decide, by decide, by decide⟩
      (by decide) (by decide)

/-- A single-range `insert` call that raises leaves the object
untouched: all its checks happen before its one splice. -/
theorem insertRanges_single (L : RangeIndexedList) (ks ke : Int) (v : RVal)
    (h : (insertRanges L [(ks, ke, v)]).2.isSome = true) :
    (insertRanges L [(ks, ke, v)]).1 = L := by
  unfold insertRanges at h ⊢
  dsimp only at h ⊢
  by_cases h1 : (do_index L._bounds ks).1 ≠ (do_index L._bounds ke).1
  · rw [if_pos h1]
  · rw [if_neg h1] at h ⊢
    by_cases h2 : (is_odd (do_index L._bounds ks).1 ||
        (do_index L._bounds ks).2 || (do_index L._bounds ke).2) = true
    · rw [if_pos h2]
    · rw [if_neg h2] at h ⊢
      by_cases h3 : ke - ks < 1
      · rw [if_pos h3]
      · rw [if_neg h3] at h
        unfold insertRanges at h
        simp at h

/-- Counterexample for C3 as stated: packing two ranges into one
`insert` call on the single-range list (2,4), where the first new
range (6,8) is acceptable and the second (3,5) overlaps, raises the
overlap `ValueError` but leaves the first range spliced in: the
bounds after the call are [2,4,6,8], not the original [2,4]. -/
theorem c3_insert_counterexample :
    (RangeIndexedList.insert ⟨[2, 4], [.bool true], false⟩ [6, 8, 3, 5]
        (some [.bool true, .bool true])).2 = some .valueOverlap ∧
    (RangeIndexedList.insert ⟨[2, 4], [.bool true], false⟩ [6, 8, 3, 5]
        (some [.bool true, .bool true])).1._bounds = [2, 4, 6, 8] ∧
    ([2, 4, 6, 8] : List Int) ≠ [2, 4] := by decide

/-- C3 amended: `insert` leaves `_bounds`/`_values` exactly unchanged
whenever it raises before splicing any range — which covers the odd
key count check, the value count check, and every rejection of a
single-range call; when several ranges are packed into one call,
ranges spliced before the failing one remain inserted (see the
counterexample). -/
theorem c3_insert_amended :
    (∀ (L : RangeIndexedList) (nk : List Int) (nv : Option (List RVal)),
        is_odd nk.length = true →
        L.insert nk nv = (L, some .valueOddKeys)) ∧
    (∀ (L : RangeIndexedList) (nk : List Int) (vs : List RVal),
        is_odd nk.length = false → vs.length ≠ nk.length / 2 →
        L.insert nk (some vs) = (L, some .valueCount)) ∧
    (∀ (L : RangeIndexedList) (ks ke : Int) (nv : Option (List RVal)),
        (L.insert [ks, ke] nv).2.isSome = true →
        (L.insert [ks, ke] nv).1 = L) := by
  refine ⟨?_, ?_, ?_⟩
  · intro L nk nv h
    unfold RangeIndexedList.insert
    rw [if_pos h]
  · intro L nk vs h hne
    unfold RangeIndexedList.insert
    rw [if_neg (by rw [h]; simp), if_pos (by simpa using hne)]
  · intro L ks ke nv h
    unfold RangeIndexedList.insert at h ⊢
    dsimp only at h ⊢
    rw [show List.length ([ks, ke] : List Int) = 2 from rfl,
      show (2 : Nat) / 2 = 1 from rfl] at h ⊢
    rw [if_neg (show ¬(is_odd 2 = true) from by decide)] at h ⊢
    generalize hnv : Option.getD nv
      (List.replicate 1 RangeIndexedList.DEFAULT_VALUE) = nvv at h ⊢
    by_cases hc : nvv.length ≠ 1
    · rw [if_pos hc] at h ⊢
    · rw [if_neg hc] at h ⊢
      push_neg at hc
      obtain ⟨v, rfl⟩ := List.length_eq_one.mp hc
      rw [show toRangeTriples [ks, ke] [v] = [(ks, ke, v)] from rfl] at h ⊢
      exact insertRanges_single L ks ke v h

/-- Witness for C3 amended: an odd key list, a mismatched value count,
and a rejected single-range call each leave the list unchanged. -/
theorem c3_insert_amended_witness :
    RangeIndexedList.insert ⟨[2, 4], [.bool true], false⟩ [6]
      (some [.bool true]) = (⟨[2, 4], [.bool true], false⟩, some .valueOddKeys) ∧
    RangeIndexedList.insert ⟨[2, 4], [.bool true], false⟩ [6, 8]
      (some [.bool true, .bool false]) =
      (⟨[2, 4], [.bool true], false⟩, some .valueCount) ∧
    (RangeIndexedList.insert ⟨[2, 4], [.bool true], false⟩ [3, 5]
      (some [.bool true])).1 = ⟨[2, 4], [.bool true], false⟩ := by
  refine ⟨?_, ?_, ?_⟩
  · exact c3_insert_amended.1 ⟨[2, 4], [.bool true], false⟩ [6]
      (some [.bool true]) (by decide)
  · exact c3_insert_amended.2.1 ⟨[2, 4], [.bool true], false⟩ [6, 8]
      [.bool true, .bool false] (by decide) (by decide)
  · exact c3_insert_amended.2.2 ⟨[2, 4], [.bool true], false⟩ 3 5
      (some [.bool true]) (by decide)

/-- Python `str.replace(old, new)` eliminates every occurrence of `old`
provided `new` does not itself contain `old`. -/
theorem strReplace_not_mem (old : Nat) (new : List Nat)
    (hnew : old ∉ new) : ∀ s : List Nat, old ∉ strReplace old new s := by
  intro s
  induction s with
  | nil => simp [strReplace]
  | cons c cs ih =>
      by_cases hc : c = old
      · simp only [strReplace, if_pos hc, List.mem_append]
        intro hcon
        rcases hcon with hcon | hcon
        · exact hnew hcon
        · exact ih hcon
      · simp only [strReplace, if_neg hc, List.mem_cons]
        intro hcon
        rcases hcon with hcon | hcon
        · exact hc hcon.symm
        · exact ih hcon

/-- Counterexample for C7 as stated: a resolved value holding two
placeholder markers has both of them replaced, not exactly one. For
the range list (2,4) with `copy_key` and value U+FFFC U+FFFC, key 3
yields the two-character string (3,3); the translation dict entry
97 -> U+FFFC U+FFFC yields (97,97) — neither result retains a marker,
as a single substitution would. -/
theorem c7_placeholder_counterexample :
    RangeIndexedList.getitem ⟨[2, 4], [.str [SUBPOINT, SUBPOINT]], true⟩ 3 =
      .ok (.str [3, 3]) ∧
    TranslationDict.getitem ⟨[(.int 97, .jstr [SUBPOINT, SUBPOINT])],
      .jstr [SUBPOINT]⟩ (.int 97) = .ok (.jstr [97, 97]) ∧
    ([3, 3] : List Nat) ≠ [3, SUBPOINT] ∧ ([3, 3] : List Nat) ≠ [SUBPOINT, 3] := by
  exact ⟨by decide, rfl, by decide, by decide⟩

/-- C7 amended: on the placeholder-substituting lookup paths — a
`RangeIndexedList` with `copy_key` and a `TranslationDict` lookup —
every occurrence (not exactly one) of the marker U+FFFC in the
resolved string value is replaced before the value is returned, by the
key as a character (`chr`) for int keys and by the key itself for
string keys of the translation dict; in particular no marker remains
when the key is not itself the marker. -/
theorem c7_placeholder_amended :
    (∀ (L : RangeIndexedList) (key : Int) (j : Nat) (f : Bool)
        (s : List Nat),
        L._copy_key = true → L._bounds.length % 2 = 0 →
        do_index L._bounds key = (j, f) →
        (f = true ∨ is_odd j = true) →
        (if L._values.length = 1 then L._values.getD 0 .none
         else L._values.getD (j / 2) .none) = .str s →
        SUBPOINT ∈ s → 0 ≤ key → key ≤ 0x10FFFF →
        L.getitem key = .ok (.str (strReplace SUBPOINT [key.toNat] s))) ∧
    (∀ (d : TranslationDict) (k : Int) (s : List Nat),
        (assocFind (.int k) d.entries).getD d.out_default = .jstr s →
        SUBPOINT ∈ s → 0 ≤ k → k ≤ 0x10FFFF →
        d.getitem (.int k) = .ok (.jstr (strReplace SUBPOINT [k.toNat] s))) ∧
    (∀ (d : TranslationDict) (ks s : List Nat),
        (assocFind (.str ks) d.entries).getD d.out_default = .jstr s →
        SUBPOINT ∈ s →
        d.getitem (.str ks) = .ok (.jstr (strReplace SUBPOINT ks s))) ∧
    (∀ (new s : List Nat), SUBPOINT ∉ new →
        SUBPOINT ∉ strReplace SUBPOINT new s) := by
  refine ⟨?_, ?_, ?_, ?_⟩
  · intro L key j f s hck heven hdo hres hval hmem hk0 hk1
    have hnotzero : ¬(f = false ∧ j = 0) := by
      rintro ⟨rfl, rfl⟩
      rcases hres with hcon | hcon
      · simp at hcon
      · simp [is_odd] at hcon
    have hnotlen : ¬(f = false ∧ j = L._bounds.length) := by
      rintro ⟨rfl, rfl⟩
      rcases hres with hcon | hcon
      · simp at hcon
      · unfold is_odd at hcon; rw [heven] at hcon; simp at hcon
    have hnotgap : ¬(f = false ∧ is_odd j = false) := by
      rintro ⟨rfl, hcon⟩
      rcases hres with hcc | hcc
      · simp at hcc
      · rw [hcc] at hcon; simp at hcon
    unfold RangeIndexedList.getitem
    rw [hdo]
    rw [if_neg hnotzero, if_neg hnotlen, if_neg hnotgap]
    rw [hval, hck]
    rw [if_neg (by simp)]
    dsimp only
    rw [if_pos hmem, if_pos ⟨hk0, hk1⟩]
  · intro d k s hres hmem hk0 hk1
    unfold TranslationDict.getitem
    rw [hres]
    dsimp only
    rw [if_pos hmem, if_pos ⟨hk0, hk1⟩]
  · intro d ks s hres hmem
    unfold TranslationDict.getitem
    rw [hres]
    dsimp only
    rw [if_pos hmem]
  · intro new s hnew
    exact strReplace_not_mem SUBPOINT new hnew s

/-- Witness for C7 amended: range list (2,4) with `copy_key` and value
"coffee U+FFFC", key 3; dict entry 97 -> "U+FFFC !" and default
lookup of the absent string key "hi". -/
theorem c7_placeholder_amended_witness :
    RangeIndexedList.getitem ⟨[2, 4], [.str [0x2615, SUBPOINT]], true⟩ 3 =
      .ok (.str (strReplace SUBPOINT [3] [0x2615, SUBPOINT])) ∧
    TranslationDict.getitem ⟨[(.int 97, .jstr [SUBPOINT, 33])],
      .jstr [SUBPOINT]⟩ (.int 97) =
      .ok (.jstr (strReplace SUBPOINT [97] [SUBPOINT, 33])) ∧
    TranslationDict.getitem TranslationDict.empty (.str [104, 105]) =
      .ok (.jstr (strReplace SUBPOINT [104, 105] [SUBPOINT])) ∧
    SUBPOINT ∉ strReplace SUBPOINT [3] [0x2615, SUBPOINT] := by
  refine ⟨?_, ?_, ?_, ?_⟩
  · exact c7_placeholder_amended.1 ⟨[2, 4], [.str [0x2615, SUBPOINT]], true⟩
      3 1 false [0x2615, SUBPOINT] rfl (by decide) (by decide)
      (Or.inr (by decide)) (by decide) (by decide) (by decide) (by decide)
  · exact c7_placeholder_amended.2.1 ⟨[(.int 97, .jstr [SUBPOINT, 33])],
      .jstr [SUBPOINT]⟩ 97 [SUBPOINT, 33] rfl (by decide) (by decide)
      (by decide)
  · exact c7_placeholder_amended.2.2.1 TranslationDict.empty [104, 105]
      [SUBPOINT] rfl (by decide)
  · exact c7_placeholder_amended.2.2.2 [3] [0x2615, SUBPOINT] (by decide)

/-- Python `str.replace` is the identity when the string does not contain the
pattern. -/
theorem strReplace_of_not_mem (old : Nat) (new : List Nat) (s : List Nat)
    (h : old ∉ s) : strReplace old new s = s := by
  induction s with
  | nil => rfl
  | cons c cs ih =>
      simp only [List.mem_cons, not_or] at h
      simp only [strReplace, if_neg (Ne.symm h.1)]
      rw [ih h.2]

/-- Looking up a key in a dict after setting that same key finds the
set value. -/
theorem assocFind_assocSet_self (k : TKey) (v : JVal)
    (es : List (TKey × JVal)) : assocFind k (assocSet k v es) = some v := by
  induction es with
  | nil => simp [assocSet, assocFind]
  | cons e rest ih =>
      by_cases he : e.1 = k
      · simp [assocSet, assocFind, he]
      · simp only [assocSet, if_neg he, assocFind, ih]

/-- Lemma: `TranslationDict.__getitem__` at an int key whose resolution (the
stored entry, or else the cached default) is the string `s`: the
result is `s` with every marker replaced by `chr(key)`. -/
theorem td_getitem_int_str (d : TranslationDict) (k : Int) (s : List Nat)
    (hres : (assocFind (.int k) d.entries).getD d.out_default = .jstr s)
    (hk0 : 0 ≤ k) (hk1 : k ≤ 0x10FFFF) :
    d.getitem (.int k) = .ok (.jstr (strReplace SUBPOINT [k.toNat] s)) := by
  unfold TranslationDict.getitem
  rw [hres]
  dsimp only
  by_cases hm : SUBPOINT ∈ s
  · rw [if_pos hm, if_pos ⟨hk0, hk1⟩]
  · rw [if_neg hm, strReplace_of_not_mem SUBPOINT [k.toNat] s hm]

/-- Lemma: `TranslationDict.__getitem__` at a string key whose resolution is
the string `s`: the result is `s` with every marker replaced by the
key itself. -/
theorem td_getitem_str_str (d : TranslationDict) (ks s : List Nat)
    (hres : (assocFind (.str ks) d.entries).getD d.out_default = .jstr s) :
    d.getitem (.str ks) = .ok (.jstr (strReplace SUBPOINT ks s)) := by
  unfold TranslationDict.getitem
  rw [hres]
  dsimp only
  by_cases hm : SUBPOINT ∈ s
  · rw [if_pos hm]
  · rw [if_neg hm, strReplace_of_not_mem SUBPOINT ks s hm]

/-- C5: on a `TranslationDict` with no default entry ever set
(`out_default` still the built-in single marker), an absent int key
returns `chr(key)` and an absent string key returns the key itself;
and setting the empty-string key to `v` updates both the cached
default and the stored mapping at once, so every subsequent absent-key
lookup resolves through `v` (with placeholder expansion). -/
theorem c5_default_fallback_spec :
    (∀ (d : TranslationDict) (k : Int),
        d.out_default = .jstr [SUBPOINT] →
        assocFind (.int k) d.entries = Option.none →
        0 ≤ k → k ≤ 0x10FFFF →
        d.getitem (.int k) = .ok (.jstr [k.toNat])) ∧
    (∀ (d : TranslationDict) (ks : List Nat),
        d.out_default = .jstr [SUBPOINT] →
        assocFind (.str ks) d.entries = Option.none →
        d.getitem (.str ks) = .ok (.jstr ks)) ∧
    (∀ (d : TranslationDict) (v : JVal),
        (d.setitem (.jstr []) v).out_default = v ∧
        assocFind (.str []) (d.setitem (.jstr []) v).entries = some v) ∧
    (∀ (d : TranslationDict) (s : List Nat) (k : Int),
        assocFind (.int k) (d.setitem (.jstr []) (.jstr s)).entries =
          Option.none →
        0 ≤ k → k ≤ 0x10FFFF →
        (d.setitem (.jstr []) (.jstr s)).getitem (.int k) =
          .ok (.jstr (strReplace SUBPOINT [k.toNat] s))) := by
  refine ⟨?_, ?_, ?_, ?_⟩
  · intro d k hdef habs hk0 hk1
    have hres : (assocFind (.int k) d.entries).getD d.out_default =
        .jstr [SUBPOINT] := by rw [habs, Option.getD_none, hdef]
    have h := td_getitem_int_str d k [SUBPOINT] hres hk0 hk1
    simpa [strReplace] using h
  · intro d ks hdef habs
    have hres : (assocFind (.str ks) d.entries).getD d.out_default =
        .jstr [SUBPOINT] := by rw [habs, Option.getD_none, hdef]
    have h := td_getitem_str_str d ks [SUBPOINT] hres
    simpa [strReplace] using h
  · intro d v
    exact ⟨rfl, assocFind_assocSet_self (.str []) v d.entries⟩
  · intro d s k habs hk0 hk1
    have hres : (assocFind (.int k)
        (d.setitem (.jstr []) (.jstr s)).entries).getD
        (d.setitem (.jstr []) (.jstr s)).out_default = .jstr s := by
      rw [habs, Option.getD_none]; rfl
    exact td_getitem_int_str _ k s hres hk0 hk1

/-- Witness for C5: on a fresh dict, absent key 97 returns chr(97) and
absent string key "hi" returns itself; after setting the default to
U+FFFC U+20E0, absent key 122 resolves through it. -/
theorem c5_default_fallback_spec_witness :
    TranslationDict.getitem TranslationDict.empty (.int 97) =
      .ok (.jstr [97]) ∧
    TranslationDict.getitem TranslationDict.empty (.str [104, 105]) =
      .ok (.jstr [104, 105]) ∧
    (TranslationDict.setitem TranslationDict.empty (.jstr [])
        (.jstr [SUBPOINT, 0x20E0])).getitem (.int 122) =
      .ok (.jstr (strReplace SUBPOINT [122] [SUBPOINT, 0x20E0])) := by
  refine ⟨?_, ?_, ?_⟩
  · exact c5_default_fallback_spec.1 TranslationDict.empty 97 rfl rfl
      (by decide) (by decide)
  · exact c5_default_fallback_spec.2.1 TranslationDict.empty [104, 105]
      rfl rfl
  · exact c5_default_fallback_spec.2.2.2 TranslationDict.empty
      [SUBPOINT, 0x20E0] 122 rfl (by decide) (by decide)

/-- C9 is a code bug: with reverse translation requested, a loaded
database containing a regex rule entry (key prefixed U+F812) or a
range rule entry (key prefixed U+F813) makes `get_trans` abort with
`NameError` — the handler's warning path reads the undefined local
`dmeta` — instead of surfacing a non-fatal warning and skipping the
entry as the spec (and the adjacent `warn` call) intends. -/
theorem c9_reverse_warning_name_error :
    get_trans [(7, ⟨true,
      [([CODE_REGEX, 120], .jarr [.jstr [97], .jstr [98]])], []⟩)] 0 false =
      .error .nameError ∧
    get_trans [(7, ⟨true,
      [([CODE_RANGE, 120],
        .jarr [.jarr [.jint 2, .jint 4], .jarr [.jstr [99]]])], []⟩)]
      0 false = .error .nameError := ⟨rfl, rfl⟩

/-- Python indexing at a non-negative index is plain list indexing. -/
theorem pyGet_ofNat (xs : List α) (n : Nat) :
    pyGet xs (n : Int) = xs.get? n := by
  unfold pyGet
  rw [if_pos (by omega)]
  simp

/-- Python indexing at exactly the length is an `IndexError`. -/
theorem pyGet_length (xs : List α) :
    pyGet xs (xs.length : Int) = Option.none := by
  rw [pyGet_ofNat]
  exact List.get?_eq_none.mpr (le_refl _)

/-- Counterexample for C8 as stated: an offset rule entry with exactly
one alternative, selector n = 1 (out of range, count = 1): the claim
requires fallback to alternative 0, but `_prep_trans_cpoff`'s
`n > len(v)` guard lets n = 1 through and `v[1]` raises `IndexError`;
n = 0 shows the fallback value that should have been used. -/
theorem c8_alternate_selection_counterexample :
    prep_trans_cpoff (.jarr [.jarr [.jint 65, .jint 90, .jint 32]]) 1 false =
      .error .indexError ∧
    prep_trans_cpoff (.jarr [.jarr [.jint 65, .jint 90, .jint 32]]) 0 false =
      .ok ⟨65, 90, 32⟩ := ⟨rfl, rfl⟩

/-- C8 amended: alternate selection is not uniform across entry kinds.
Character entries (`_prep_trans`) fall back to alternative 0 for every
selector `n >= count` and pick alternative `n` for `n < count`
(`n = 2` of 3 picks the third). Offset, range, and regex entries guard
with `n > count` instead, so they fall back to alternative 0 only for
`n > count`, pick alternative `n` for `n < count`, and raise
`IndexError` at exactly `n = count`. -/
theorem c8_alternate_selection_amended :
    (∀ (d : TranslationDict) (k : List Nat) (xs : List JVal) (n : Int)
        (v0 : JVal), xs.head? = some v0 → (xs.length : Int) ≤ n →
        prep_trans d k (.jarr xs) n false false =
          .ok (d.setitem (.jstr k) v0)) ∧
    (∀ (d : TranslationDict) (k : List Nat) (xs : List JVal) (n : Nat)
        (v : JVal), xs.get? n = some v → (n : Int) < (xs.length : Int) →
        prep_trans d k (.jarr xs) (n : Int) false false =
          .ok (d.setitem (.jstr k) v)) ∧
    (∀ (alts u : List JVal) (rev : Bool), alts.head? = some (.jarr u) →
        prep_trans_cpoff (.jarr alts) (alts.length : Int) rev =
          .error .indexError) ∧
    (∀ (alts u : List JVal) (n : Int) (rev : Bool),
        alts.head? = some (.jarr u) → (alts.length : Int) < n →
        prep_trans_cpoff (.jarr alts) n rev = cpoffArgs (.jarr u) rev) ∧
    (∀ (alts u : List JVal) (n : Nat) (a : JVal) (rev : Bool),
        alts.head? = some (.jarr u) → alts.get? n = some a →
        (n : Int) < (alts.length : Int) →
        prep_trans_cpoff (.jarr alts) (n : Int) rev = cpoffArgs a rev) ∧
    (∀ (alts u : List JVal), alts.head? = some (.jarr u) →
        prep_trans_regex (.jarr alts) (alts.length : Int) false =
          .error .indexError) ∧
    (∀ (alts u w : List JVal), alts.head? = some (.jarr u) →
        u.head? = some (.jarr w) →
        prep_trans_ril (.jarr alts) (alts.length : Int) false =
          .error .indexError) ∧
    (∀ (alts u : List JVal) (n : Int), alts.head? = some (.jarr u) →
        (alts.length : Int) < n →
        prep_trans_regex (.jarr alts) n false = regexArgs (.jarr u)) ∧
    (∀ (alts u : List JVal) (n : Nat) (a : JVal),
        alts.head? = some (.jarr u) → alts.get? n = some a →
        (n : Int) < (alts.length : Int) →
        prep_trans_regex (.jarr alts) (n : Int) false = regexArgs a) ∧
    (∀ (alts u w : List JVal) (n : Int), alts.head? = some (.jarr u) →
        u.head? = some (.jarr w) → (alts.length : Int) < n →
        prep_trans_ril (.jarr alts) n false =
          (do
            let bs ← pyGetE u 0
            let vs ← pyGetE u 1
            ril_init bs vs)) ∧
    (∀ (alts u w : List JVal) (n : Nat) (alt : List JVal),
        alts.head? = some (.jarr u) → u.head? = some (.jarr w) →
        alts.get? n = some (.jarr alt) →
        (n : Int) < (alts.length : Int) →
        prep_trans_ril (.jarr alts) (n : Int) false =
          (do
            let bs ← pyGetE alt 0
            let vs ← pyGetE alt 1
            ril_init bs vs)) := by
  refine ⟨?_, ?_, ?_, ?_, ?_, ?_, ?_, ?_, ?_, ?_, ?_⟩
  · intro d k xs n v0 hhead hge
    cases xs with
    | nil => simp at hhead
    | cons a t =>
        simp only [List.head?] at hhead
        obtain rfl := Option.some.inj hhead
        unfold prep_trans
        dsimp only
        rw [if_pos hge]
        rfl
  · intro d k xs n v hget hlt
    unfold prep_trans
    dsimp only
    have hpy : pyGetE xs (n : Int) = .ok v := by
      unfold pyGetE
      rw [pyGet_ofNat, hget]
    rw [if_neg (by omega), hpy]
    rfl
  · intro alts u rev hhead
    cases alts with
    | nil => simp at hhead
    | cons a t =>
        simp only [List.head?] at hhead
        obtain rfl := Option.some.inj hhead
        unfold prep_trans_cpoff
        dsimp only [List.head?]
        rw [if_neg (by omega)]
        rw [pyGet_length]
  · intro alts u n rev hhead hgt
    cases alts with
    | nil => simp at hhead
    | cons a t =>
        simp only [List.head?] at hhead
        obtain rfl := Option.some.inj hhead
        unfold prep_trans_cpoff
        dsimp only [List.head?]
        rw [if_pos hgt]
        rw [show pyGet (JVal.jarr u :: t) 0 = some (.jarr u) from rfl]
  · intro alts u n a rev hhead hget hlt
    cases alts with
    | nil => simp at hhead
    | cons x t =>
        simp only [List.head?] at hhead
        obtain rfl := Option.some.inj hhead
        unfold prep_trans_cpoff
        dsimp only [List.head?]
        rw [if_neg (by omega)]
        rw [pyGet_ofNat, hget]
  · intro alts u hhead
    cases alts with
    | nil => simp at hhead
    | cons a t =>
        simp only [List.head?] at hhead
        obtain rfl := Option.some.inj hhead
        unfold prep_trans_regex
        rw [if_neg (by simp)]
        dsimp only [List.head?]
        rw [if_neg (by omega)]
        rw [pyGet_length]
  · intro alts u w hhead hhead2
    cases alts with
    | nil => simp at hhead
    | cons a t =>
        simp only [List.head?] at hhead
        obtain rfl := Option.some.inj hhead
        cases u with
        | nil => simp at hhead2
        | cons b t2 =>
            simp only [List.head?] at hhead2
            obtain rfl := Option.some.inj hhead2
            unfold prep_trans_ril
            rw [if_neg (by simp)]
            dsimp only [List.head?]
            rw [if_neg (by omega)]
            rw [pyGet_length]
  · intro alts u n hhead hgt
    cases alts with
    | nil => simp at hhead
    | cons a t =>
        simp only [List.head?] at hhead
        obtain rfl := Option.some.inj hhead
        unfold prep_trans_regex
        rw [if_neg (by simp)]
        dsimp only [List.head?]
        rw [if_pos hgt]
        rw [show pyGet (JVal.jarr u :: t) 0 = some (.jarr u) from rfl]
  · intro alts u n a hhead hget hlt
    cases alts with
    | nil => simp at hhead
    | cons x t =>
        simp only [List.head?] at hhead
        obtain rfl := Option.some.inj hhead
        unfold prep_trans_regex
        rw [if_neg (by simp)]
        dsimp only [List.head?]
        rw [if_neg (by omega)]
        rw [pyGet_ofNat, hget]
  · intro alts u w n hhead hhead2 hgt
    cases alts with
    | nil => simp at hhead
    | cons a t =>
        simp only [List.head?] at hhead
        obtain rfl := Option.some.inj hhead
        cases u with
        | nil => simp at hhead2
        | cons b t2 =>
            simp only [List.head?] at hhead2
            obtain rfl := Option.some.inj hhead2
            unfold prep_trans_ril
            rw [if_neg (by simp)]
            dsimp only [List.head?]
            rw [if_pos hgt]
            rw [show pyGet (JVal.jarr (JVal.jarr w :: t2) :: t) 0 =
              some (.jarr (JVal.jarr w :: t2)) from rfl]
  · intro alts u w n alt hhead hhead2 hget hlt
    cases alts with
    | nil => simp at hhead
    | cons x t =>
        simp only [List.head?] at hhead
        obtain rfl := Option.some.inj hhead
        cases u with
        | nil => simp at hhead2
        | cons b t2 =>
            simp only [List.head?] at hhead2
            obtain rfl := Option.some.inj hhead2
            unfold prep_trans_ril
            rw [if_neg (by simp)]
            dsimp only [List.head?]
            rw [if_neg (by omega)]
            rw [pyGet_ofNat, hget]

/-- Witness for C8 amended: selector 5 falls back to alternative 0 on
a character entry with three alternatives, selector 2 picks the third
alternative on character and offset entries, selector 3 (= count)
raises `IndexError` on the offset entry, selector 5 falls back to
alternative 0 on a one-alternative regex entry, and selector 1 picks
the second alternative of a two-alternative range entry. -/
theorem c8_alternate_selection_amended_witness :
    prep_trans TranslationDict.empty [98]
      (.jarr [.jstr [49], .jstr [50], .jstr [51]]) 5 false false =
      .ok (TranslationDict.empty.setitem (.jstr [98]) (.jstr [49])) ∧
    prep_trans TranslationDict.empty [98]
      (.jarr [.jstr [49], .jstr [50], .jstr [51]]) 2 false false =
      .ok (TranslationDict.empty.setitem (.jstr [98]) (.jstr [51])) ∧
    prep_trans_cpoff (.jarr [.jarr [.jint 65, .jint 90, .jint 32],
      .jarr [.jint 65, .jint 90, .jint 33],
      .jarr [.jint 65, .jint 90, .jint 34]]) 3 false = .error .indexError ∧
    prep_trans_cpoff (.jarr [.jarr [.jint 65, .jint 90, .jint 32],
      .jarr [.jint 65, .jint 90, .jint 33],
      .jarr [.jint 65, .jint 90, .jint 34]]) 2 false =
      cpoffArgs (.jarr [.jint 65, .jint 90, .jint 34]) false ∧
    prep_trans_regex (.jarr [.jarr [.jstr [97], .jstr [98]]]) 5 false =
      regexArgs (.jarr [.jstr [97], .jstr [98]]) ∧
    prep_trans_ril (.jarr [.jarr [.jarr [.jint 2, .jint 4],
        .jarr [.jstr [99]]],
      .jarr [.jarr [.jint 6, .jint 8], .jarr [.jstr [100]]]]) 1 false =
      (do
        let bs ← pyGetE [JVal.jarr [.jint 6, .jint 8],
          JVal.jarr [.jstr [100]]] 0
        let vs ← pyGetE [JVal.jarr [.jint 6, .jint 8],
          JVal.jarr [.jstr [100]]] 1
        ril_init bs vs) := by
  refine ⟨?_, ?_, ?_, ?_, ?_, ?_⟩
  · exact c8_alternate_selection_amended.1 TranslationDict.empty [98]
      [.jstr [49], .jstr [50], .jstr [51]] 5 (.jstr [49]) rfl (by decide)
  · exact c8_alternate_selection_amended.2.1 TranslationDict.empty [98]
      [.jstr [49], .jstr [50], .jstr [51]] 2 (.jstr [51]) rfl (by decide)
  · exact c8_alternate_selection_amended.2.2.1
      [.jarr [.jint 65, .jint 90, .jint 32],
       .jarr [.jint 65, .jint 90, .jint 33],
       .jarr [.jint 65, .jint 90, .jint 34]]
      [.jint 65, .jint 90, .jint 32] false rfl
  · exact c8_alternate_selection_amended.2.2.2.2.1
      [.jarr [.jint 65, .jint 90, .jint 32],
       .jarr [.jint 65, .jint 90, .jint 33],
       .jarr [.jint 65, .jint 90, .jint 34]]
      [.jint 65, .jint 90, .jint 32] 2
      (.jarr [.jint 65, .jint 90, .jint 34]) false rfl rfl (by decide)
  · exact c8_alternate_selection_amended.2.2.2.2.2.2.2.1
      [.jarr [.jstr [97], .jstr [98]]] [.jstr [97], .jstr [98]] 5 rfl
      (by decide)
  · exact c8_alternate_selection_amended.2.2.2.2.2.2.2.2.2.2
      [.jarr [.jarr [.jint 2, .jint 4], .jarr [.jstr [99]]],
       .jarr [.jarr [.jint 6, .jint 8], .jarr [.jstr [100]]]]
      [.jarr [.jint 2, .jint 4], .jarr [.jstr [99]]] [.jint 2, .jint 4] 1
      [.jarr [.jint 6, .jint 8], .jarr [.jstr [100]]] rfl rfl rfl
      (by decide)

/-- Lemma: `__setitem__` with a string key stores under `strKey` of the key,
whatever its length. -/
theorem setitem_entries (d : TranslationDict) (k : List Nat) (v : JVal) :
    (d.setitem (.jstr k) v).entries = assocSet (strKey k) v d.entries := by
  rcases k with _ | ⟨c, _ | ⟨c2, rest⟩⟩ <;> rfl

/-- The key coercion of `__setitem__` is injective on string keys. -/
theorem strKey_inj (a b : List Nat) (h : strKey a = strKey b) : a = b := by
  rcases a with _ | ⟨x, _ | ⟨y, t⟩⟩ <;> rcases b with _ | ⟨x', _ | ⟨y', t'⟩⟩ <;>
    simp_all [strKey]

/-- Dict lookup through a dict update: the set key answers the set
value, other keys are unaffected. -/
theorem assocFind_assocSet (κ κ' : TKey) (v : JVal)
    (es : List (TKey × JVal)) :
    assocFind κ (assocSet κ' v es) =
      if κ' = κ then some v else assocFind κ es := by
  induction es with
  | nil => simp [assocSet, assocFind]
  | cons e rest ih =>
      by_cases he : e.1 = κ'
      · by_cases hκ : κ' = κ
        · simp [assocSet, assocFind, he, hκ]
        · simp [assocSet, assocFind, he, hκ]
      · by_cases hκ : κ' = κ
        · subst hκ
          simp [assocSet, assocFind, he, ih]
        · have hκ2 : ¬κ = κ' := fun hc => hκ hc.symm
          by_cases heκ : e.1 = κ
          · simp [assocSet, assocFind, he, hκ, hκ2, heκ]
          · simp [assocSet, assocFind, he, hκ, hκ2, heκ, ih]

/-- One step of `lastVal`. -/
theorem lastVal_cons (k : List Nat) (e : List Nat × JVal)
    (rest : List (List Nat × JVal)) :
    lastVal k (e :: rest) =
      (lastVal k rest).elim (if e.1 = k then some e.2 else Option.none)
        some := by
  show (match lastVal k rest with
        | some v => some v
        | Option.none => if e.1 = k then some e.2 else Option.none) =
      (lastVal k rest).elim (if e.1 = k then some e.2 else Option.none) some
  rcases lastVal k rest with _ | v <;> rfl

/-- Folding plain character entries through `__setitem__`: for each
string key the binding left in force is the key's last binding in the
entry list, and keys not written keep their previous binding. -/
theorem foldSetitems_find (es : List (List Nat × JVal))
    (d : TranslationDict) (k : List Nat) :
    assocFind (strKey k) (foldSetitems es d).entries =
      (lastVal k es).elim (assocFind (strKey k) d.entries) some := by
  induction es generalizing d with
  | nil => rfl
  | cons e rest ih =>
      have hstep : foldSetitems (e :: rest) d =
          foldSetitems rest (d.setitem (.jstr e.1) e.2) := rfl
      rw [hstep, ih, lastVal_cons]
      rcases hl : lastVal k rest with _ | v
      · simp only [Option.elim]
        rw [setitem_entries, assocFind_assocSet]
        by_cases hek : e.1 = k
        · rw [if_pos (by rw [hek]), if_pos hek]
        · rw [if_neg (fun hc => hek (strKey_inj _ _ hc)), if_neg hek]
      · rfl

/-- The last binding in an appended entry list: bindings of the later
list win. -/
theorem lastVal_append (k : List Nat) (xs ys : List (List Nat × JVal)) :
    lastVal k (xs ++ ys) = (lastVal k ys).elim (lastVal k xs) some := by
  induction xs with
  | nil =>
      rw [List.nil_append]
      rcases hl : lastVal k ys with _ | v <;> rfl
  | cons x xs ih =>
      rw [List.cons_append, lastVal_cons, ih, lastVal_cons]
      rcases hl : lastVal k ys with _ | v <;> rfl

/-- A key with no binding has no last binding, and conversely. -/
theorem lastVal_none_iff (k : List Nat) (l : List (List Nat × JVal)) :
    lastVal k l = Option.none ↔ findVal k l = Option.none := by
  induction l with
  | nil => exact ⟨fun _ => rfl, fun _ => rfl⟩
  | cons e rest ih =>
      rw [lastVal_cons,
        show findVal k (e :: rest) =
          if e.1 = k then some e.2 else findVal k rest from rfl]
      rcases hl : lastVal k rest with _ | v
      · have hfr : findVal k rest = Option.none := ih.mp hl
        by_cases hek : e.1 = k
        · simp [Option.elim, hek]
        · simp [Option.elim, hek, hfr]
      · have hfr : ¬ findVal k rest = Option.none := by
          intro hc
          rw [ih.mpr hc] at hl
          cases hl
        by_cases hek : e.1 = k
        · simp [Option.elim, hek]
        · simp [Option.elim, hek, hfr]

/-- A key absent from the keys of a dict has no binding. -/
theorem findVal_not_mem (k : List Nat) (l : List (List Nat × JVal))
    (h : k ∉ l.map Prod.fst) : findVal k l = Option.none := by
  induction l with
  | nil => rfl
  | cons e rest ih =>
      simp only [List.map_cons, List.mem_cons, not_or] at h
      unfold findVal
      rw [if_neg (fun hc => h.1 hc.symm)]
      exact ih h.2

/-- In a dict with no duplicate keys (every loaded Python dict), the
first and last binding of a key agree. -/
theorem lastVal_of_nodup (k : List Nat) (l : List (List Nat × JVal))
    (hn : (l.map Prod.fst).Nodup) (v : JVal) (h : findVal k l = some v) :
    lastVal k l = some v := by
  induction l with
  | nil => simp [findVal] at h
  | cons e rest ih =>
      simp only [List.map_cons, List.nodup_cons] at hn
      unfold findVal at h
      unfold lastVal
      by_cases hek : e.1 = k
      · rw [if_pos hek] at h
        have hrest : findVal k rest = Option.none :=
          findVal_not_mem k rest (by rw [← hek]; exact hn.1)
        rw [(lastVal_none_iff k rest).mpr hrest, if_pos hek]
        exact congrArg some (Option.some.inj h)
      · rw [if_neg hek] at h
        rw [ih hn.2 h]

/-- A plain character entry is dispatched to `_prep_trans`, which (at
`maketrans=False`, no reversal) stores it into the first dict and
touches nothing else. -/
theorem getTransStep_plain (n : Int) (st : TranslationDict × List TailLookup)
    (k : List Nat) (s : List Nat) (hp : entryPlain (k, .jstr s) = true) :
    getTransStep n false false st k (.jstr s) =
      .ok (st.1.setitem (.jstr k) (.jstr s), st.2) := by
  simp only [entryPlain, Bool.and_eq_true, bne_iff_ne, ne_eq,
    Bool.not_eq_eq_eq_not, Bool.not_true, List.isEmpty_eq_false] at hp
  obtain ⟨⟨⟨hk, h1⟩, h2⟩, h3⟩ := hp
  unfold getTransStep
  rw [if_neg hk, if_neg h1, if_neg h2, if_neg h3]
  rfl

/-- Folding a database of plain character entries through the
`get_trans` inner loop succeeds and is exactly `foldSetitems` on the
first dict. -/
theorem foldEntries_plain (n : Int) (es : List (List Nat × JVal))
    (hp : es.all entryPlain = true) :
    ∀ st : TranslationDict × List TailLookup,
      es.foldlM (fun st2 e => getTransStep n false false st2 e.1 e.2) st =
        .ok (foldSetitems es st.1, st.2) := by
  induction es with
  | nil => intro st; rfl
  | cons e rest ih =>
      intro st
      simp only [List.all_cons, Bool.and_eq_true] at hp
      obtain ⟨hpe, hprest⟩ := hp
      rcases e with ⟨k, v⟩
      rcases v with _ | m | s | xs
      · simp [entryPlain] at hpe
      · simp [entryPlain] at hpe
      · rw [show List.foldlM
            (fun st2 e => getTransStep n false false st2 e.1 e.2) st
            ((k, JVal.jstr s) :: rest) =
          Except.bind (getTransStep n false false st k (.jstr s))
            (fun st2 => List.foldlM
              (fun st2 e => getTransStep n false false st2 e.1 e.2)
              st2 rest) from rfl]
        rw [getTransStep_plain n st k s hpe]
        show List.foldlM (fun st2 e => getTransStep n false false st2 e.1 e.2)
            (st.1.setitem (.jstr k) (.jstr s), st.2) rest =
          Except.ok (foldSetitems ((k, JVal.jstr s) :: rest) st.1, st.2)
        rw [ih hprest]
        rfl
      · simp [entryPlain] at hpe

/-- Lemma: `foldSetitems` over an appended entry list is sequential
composition. -/
theorem foldSetitems_append (xs ys : List (List Nat × JVal))
    (d : TranslationDict) :
    foldSetitems (xs ++ ys) d = foldSetitems ys (foldSetitems xs d) :=
  List.foldl_append _ _ _ _

/-- C4: loading database 2 (which includes database 1, which includes
database 0) caches the three databases in the order 0, 1, 2 — included
databases first — and `get_trans` then merges their plain character
entries into the first dict in that order, so the includer's binding
for a shared key always overrides the included one: a key bound in
database 2 resolves to database 2's value, and a key bound only in
database 0 resolves to database 0's value. -/
theorem c4_include_precedence (tA tB tC : List (List Nat × JVal))
    (hpA : tA.all entryPlain = true) (hpB : tB.all entryPlain = true)
    (hpC : tC.all entryPlain = true)
    (hnA : (tA.map Prod.fst).Nodup) (hnC : (tC.map Prod.fst).Nodup)
    (k : List Nat) :
    load_trans (chainRepo tA tB tC) 4 2 =
      .ok ([(0, ⟨false, tA, []⟩), (1, ⟨false, tB, [0]⟩),
            (2, ⟨false, tC, [1]⟩)], [0, 1, 2]) ∧
    get_trans [(0, ⟨false, tA, []⟩), (1, ⟨false, tB, [0]⟩),
        (2, ⟨false, tC, [1]⟩)] 0 false =
      .ok (foldSetitems (tA ++ tB ++ tC) TranslationDict.empty, []) ∧
    (∀ vC, findVal k tC = some vC →
      assocFind (strKey k) (foldSetitems (tA ++ tB ++ tC)
        TranslationDict.empty).entries = some vC) ∧
    (∀ vA, findVal k tA = some vA → findVal k tB = Option.none →
      findVal k tC = Option.none →
      assocFind (strKey k) (foldSetitems (tA ++ tB ++ tC)
        TranslationDict.empty).entries = some vA) := by
  refine ⟨rfl, ?_, ?_, ?_⟩
  · unfold get_trans
    rw [show List.foldlM (m := Except PyErr) (fun st d =>
        d.2.trans.foldlM (fun st2 e =>
          getTransStep 0 false d.2.reverse_trans st2 e.1 e.2) st)
        (TranslationDict.empty, ([] : List TailLookup))
        [((0 : Nat), (⟨false, tA, []⟩ : DBFile)), (1, ⟨false, tB, [0]⟩),
         (2, ⟨false, tC, [1]⟩)] =
      Except.bind (tA.foldlM (fun st2 e =>
          getTransStep 0 false false st2 e.1 e.2)
          (TranslationDict.empty, []))
        (fun s1 => Except.bind (tB.foldlM (fun st2 e =>
            getTransStep 0 false false st2 e.1 e.2) s1)
          (fun s2 => Except.bind (tC.foldlM (fun st2 e =>
              getTransStep 0 false false st2 e.1 e.2) s2)
            (fun s3 => .ok s3))) from rfl]
    rw [foldEntries_plain 0 tA hpA]
    dsimp only [Except.bind]
    rw [foldEntries_plain 0 tB hpB]
    dsimp only [Except.bind]
    rw [foldEntries_plain 0 tC hpC]
    dsimp only [Except.bind]
    rw [foldSetitems_append, foldSetitems_append]
  · intro vC hC
    rw [foldSetitems_find, lastVal_append, lastVal_append,
      lastVal_of_nodup k tC hnC vC hC]
    rfl
  · intro vA hA hB hC
    rw [foldSetitems_find, lastVal_append, lastVal_append,
      (lastVal_none_iff k tC).mpr hC, (lastVal_none_iff k tB).mpr hB,
      lastVal_of_nodup k tA hnA vA hA]
    rfl

/-- Witness for C4 on concrete databases: database 0 binds 'a' -> "1"
and 'x' -> "X", database 1 binds 'y' -> "Y", database 2 binds
'a' -> "2"; the merged dict answers 'a' with database 2's "2" and 'x'
with database 0's "X". -/
theorem c4_include_precedence_witness :
    assocFind (strKey [97]) (foldSetitems
      ([([97], .jstr [49]), ([120], .jstr [88])] ++ [([121], .jstr [89])] ++
        [([97], .jstr [50])]) TranslationDict.empty).entries =
      some (.jstr [50]) ∧
    assocFind (strKey [120]) (foldSetitems
      ([([97], .jstr [49]), ([120], .jstr [88])] ++ [([121], .jstr [89])] ++
        [([97], .jstr [50])]) TranslationDict.empty).entries =
      some (.jstr [88]) := by
  constructor
  · exact (c4_include_precedence [([97], .jstr [49]), ([120], .jstr [88])]
      [([121], .jstr [89])] [([97], .jstr [50])] (by decide) (by decide)
      (by decide) (by decide) (by decide) [97]).2.2.1 (.jstr [50]) rfl
  · exact (c4_include_precedence [([97], .jstr [49]), ([120], .jstr [88])]
      [([121], .jstr [89])] [([97], .jstr [50])] (by decide) (by decide)
      (by decide) (by decide) (by decide) [120]).2.2.2 (.jstr [88]) rfl rfl
      rfl
